import Mathlib

/-!
Verification of the adaptive extraction and resilience core of the HKJC
race-data scraper (`hkjc_scraper`), against its natural-language
specification.  Python functions from `selectors.py`, `utils.py`,
`models.py`, `horse_detail.py`, `main.py` and `constants.py` are shallowly
embedded as executable Lean definitions; theorems settle the spec claims.

Scope notes on the embedding:
* Python strings are Lean `String`s (lists of unicode characters).
* Python's `\w` regex class is embedded for the character repertoire the
  scraper actually handles (ASCII alphanumerics, underscore, and CJK
  ideographs U+4E00–U+9FFF); likewise `\s` is embedded for ASCII
  whitespace and the full-width space the code normalizes.
* Machine integers do not overflow in any code path modelled here, so
  `Nat` is used directly.
-/

namespace HKJC

/-- Characters treated as whitespace by the scraper's `re.sub(r"\s+", ...)`
(ASCII whitespace; the full-width space U+3000 is replaced by the code
before the regex runs, and is included here for faithfulness to `\s`). -/
def isSpaceCh (c : Char) : Bool :=
  c == ' ' || c == '\t' || c == '\n' || c == '\r' || c == '\x0b' || c == '\x0c' || c == '　'

/-- CJK ideograph test, embedding the regex class `[一-鿿]` from
`selectors.py` lines 108–109. -/
def isCJK (c : Char) : Bool :=
  0x4e00 ≤ c.val ∧ c.val ≤ 0x9fff

/-- Python's `\w` (word character) on the repertoire in scope: ASCII
alphanumerics, underscore, CJK ideographs. -/
def isWordCh (c : Char) : Bool :=
  c.isAlphanum || c == '_' || isCJK c

/-- An alphanumeric character (no underscore), used by the spec's wording
of matching tier 3 ("stripping all non-alphanumeric characters"). -/
def isAlnumCh (c : Char) : Bool :=
  c.isAlphanum || isCJK c

/-- Collapse runs of whitespace into single spaces:
`re.sub(r"\s+", " ", text)` from `utils.normalize_text`. -/
def collapseWs : List Char → List Char
  | [] => []
  | [c] => [if isSpaceCh c then ' ' else c]
  | c :: d :: cs =>
    if isSpaceCh c && isSpaceCh d then collapseWs (d :: cs)
    else (if isSpaceCh c then ' ' else c) :: collapseWs (d :: cs)

/-- `utils.normalize_text`: replace full-width spaces with ordinary spaces,
collapse whitespace runs to single spaces, strip both ends.  (The code
first does `text.replace("　", " ")`; since `isSpaceCh` already counts
U+3000 as whitespace, the replace is subsumed by the collapse+strip.) -/
def normalizeText (s : String) : String :=
  String.mk (((collapseWs s.data).dropWhile (· == ' ')).reverse.dropWhile (· == ' ') |>.reverse)

/-- `a` is a (contiguous) leading block of `b`; building block for
Python's substring test. -/
def chHead : List Char → List Char → Bool
  | [], _ => true
  | _ :: _, [] => false
  | a :: as, b :: bs => a == b && chHead as bs

/-- Python's substring operator `a in b` on the character lists. -/
def chSub : List Char → List Char → Bool
  | a, [] => chHead a []
  | a, b :: bs => chHead a (b :: bs) || chSub a bs

/-- Python's `sub in s` on strings. -/
def strSub (a b : String) : Bool :=
  chSub a.data b.data

/-- Keep only the characters satisfying `p` (embeds `re.sub(r"[^X]", "", s)`
for a character class `X`). -/
def keepCh (p : Char → Bool) (s : String) : String :=
  String.mk (s.data.filter p)

/-! ### Header matching (`selectors.SelectorHelper._header_matches`, lines 89–122) -/

/-- `re.sub(r"[^\w]", "", s)`: keep word characters only (selectors.py 100–101). -/
def stripNonWord (s : String) : String := keepCh isWordCh s

/-- Stripping all non-alphanumeric characters, the operation named by the
spec's wording of matching tier 3 (`spec.md` §4.3 item 3).  Differs from
`stripNonWord` only on the underscore. -/
def stripNonAlnum (s : String) : String := keepCh isAlnumCh s

/-- `re.sub(r"[^一-鿿]", "", s)`: keep CJK ideographs only (selectors.py 108–109). -/
def stripNonCJK (s : String) : String := keepCh isCJK s

/-- All sliding windows of two consecutive characters
(`expected_core[i:i+2]` for `i in range(len(expected_core) - 1)`). -/
def win2 : List Char → List (List Char)
  | a :: b :: rest => [a, b] :: win2 (b :: rest)
  | _ => []

/-- `SelectorHelper._header_matches` (selectors.py 89–122), embedded with
the same early-return structure. -/
def headerMatches (expected actual : String) : Bool :=
  if expected == actual then true
  else if strSub expected actual || strSub actual expected then true
  else if stripNonWord expected == stripNonWord actual then true
  else if stripNonCJK expected != "" && stripNonCJK actual != "" then
    if strSub (stripNonCJK expected) (stripNonCJK actual) ||
        strSub (stripNonCJK actual) (stripNonCJK expected) then true
    else if 2 ≤ (stripNonCJK expected).length ∧ 2 ≤ (stripNonCJK actual).length then
      (win2 (stripNonCJK expected).data).any (fun w => chSub w (stripNonCJK actual).data)
    else false
  else false

/-- The four-tier characterization exactly as the spec words it, with
tier 3 equal to "equality after stripping all non-alphanumeric
characters from both sides". -/
def specHeaderMatchesClaim (expected actual : String) : Bool :=
  (expected == actual) ||
  (strSub expected actual || strSub actual expected) ||
  (stripNonAlnum expected == stripNonAlnum actual) ||
  (stripNonCJK expected != "" && stripNonCJK actual != "" &&
    (strSub (stripNonCJK expected) (stripNonCJK actual) ||
     strSub (stripNonCJK actual) (stripNonCJK expected) ||
     (win2 (stripNonCJK expected).data).any (fun w => chSub w (stripNonCJK actual).data)))

/-- The four-tier characterization with tier 3 amended to Python's actual
stripping class `[^\w]` (word characters: alphanumerics or underscore). -/
def specHeaderMatchesAmended (expected actual : String) : Bool :=
  (expected == actual) ||
  (strSub expected actual || strSub actual expected) ||
  (stripNonWord expected == stripNonWord actual) ||
  (stripNonCJK expected != "" && stripNonCJK actual != "" &&
    (strSub (stripNonCJK expected) (stripNonCJK actual) ||
     strSub (stripNonCJK actual) (stripNonCJK expected) ||
     (win2 (stripNonCJK expected).data).any (fun w => chSub w (stripNonCJK actual).data)))

/-! ### Column mapping (`selectors.SelectorHelper.get_header_column_map`, lines 124–156) -/

/-- Python `dict` assignment on a string-keyed association list: replace
the value of an existing key in place, otherwise append the key. -/
def dictInsert : List (String × Nat) → String → Nat → List (String × Nat)
  | [], k, v => [(k, v)]
  | (k0, v0) :: rest, k, v =>
    if k0 = k then (k0, v) :: rest else (k0, v0) :: dictInsert rest k v

/-- Python `dict` lookup on a string-keyed association list. -/
def alistFind {α : Type} : List (String × α) → String → Option α
  | [], _ => none
  | (k0, v0) :: rest, k => if k0 = k then some v0 else alistFind rest k

/-- Keys of an association list. -/
def alistKeys {α : Type} (m : List (String × α)) : List String :=
  m.map Prod.fst

/-- The first expected label matching a (normalized, non-empty) header
text: the inner `for expected in expected_headers: ... break` loop of
`get_header_column_map`. -/
def firstMatchingLabel (expected : List String) (text : String) : Option String :=
  expected.find? (fun e2 => headerMatches e2 text)

/-- Loop body of `get_header_column_map`: walk the header cells left to
right with their column index, skip cells whose normalized text is empty,
and assign the first matching expected label to the current index. -/
def buildColumnMapGo (expected : List String) : Nat → List String → List (String × Nat) →
    List (String × Nat)
  | _, [], m => m
  | i, c :: cs, m =>
    if normalizeText c = "" then buildColumnMapGo expected (i + 1) cs m
    else
      match firstMatchingLabel expected (normalizeText c) with
      | some e2 => buildColumnMapGo expected (i + 1) cs (dictInsert m e2 i)
      | none => buildColumnMapGo expected (i + 1) cs m

/-- `SelectorHelper.get_header_column_map` (selectors.py 124–156): header
row cells are given as their raw texts. -/
def getHeaderColumnMap (headerCells : List String) (expected : List String) :
    List (String × Nat) :=
  buildColumnMapGo expected 0 headerCells []

/-- Index of the last header cell whose first matching expected label is
`e` (scanning cells from index `i`).  This is the value
`get_header_column_map` actually stores for `e`. -/
def lastAssignedIdx (expected : List String) (e : String) : Nat → List String → Option Nat
  | _, [] => none
  | i, c :: cs =>
    match lastAssignedIdx expected e (i + 1) cs with
    | some j => some j
    | none =>
      if normalizeText c = "" then none
      else if firstMatchingLabel expected (normalizeText c) = some e then some i
      else none

/-! ### Table location (`selectors.SelectorHelper.find_table_by_headers`, lines 19–51,
and `_table_has_headers`, lines 53–87) -/

/-- A candidate table as seen by `_table_has_headers`: its `th` cell texts
and, as fallback, its first row's cell texts. -/
structure TableHdr where
  ths : List String
  firstRowCells : List String
deriving DecidableEq

/-- Header texts of a table: prefer `th` cells, else the first row's
cells; normalize each and drop empties (selectors.py 56–72). -/
def headerTexts (t : TableHdr) : List String :=
  ((if t.ths.isEmpty then t.firstRowCells else t.ths).map normalizeText).filter
    (fun s => s != "")

/-- Number of expected labels having at least one matching header cell
(selectors.py 74–80). -/
def matchedCount (t : TableHdr) (expected : List String) : Nat :=
  (expected.filter (fun e => (headerTexts t).any (fun h => headerMatches e h))).length

/-- `_table_has_headers`: require at least 3 matching headers
(selectors.py 82–83). -/
def tableHasHeadersB (t : TableHdr) (expected : List String) : Bool :=
  decide (3 ≤ matchedCount t expected)

/-- `find_table_by_headers`: scan the candidate tables in page order and
return the first that has the expected headers; `none` when no table
qualifies (selectors.py 29–51). -/
def findTableByHeaders (tables : List TableHdr) (expected : List String) : Option TableHdr :=
  tables.find? (fun t => tableHasHeadersB t expected)

/-! ### Retry with backoff (`utils.retry_with_backoff`, lines 55–92) -/

/-- The retry loop of `retry_with_backoff`, embedded over an oracle `f`
giving the outcome of each attempt (indexed from 0) and a jitter stream
`jit` (the successive draws of `random.randint(0, 1000)`).  Returns the
final outcome (`Except.error` models the re-raised last exception), the
list of back-off sleeps in milliseconds, and the number of invocations of
the operation.  The second index counts the retries still permitted
(`max_retries - attempt`). -/
def retryGo {ε α : Type} (f : Nat → Except ε α) (jit : Nat → Nat) (base maxd : Nat) :
    Nat → Nat → Except ε α × List Nat × Nat
  | attempt, 0 =>
    match f attempt with
    | Except.ok v => (Except.ok v, [], 1)
    | Except.error e => (Except.error e, [], 1)
  | attempt, rem + 1 =>
    match f attempt with
    | Except.ok v => (Except.ok v, [], 1)
    | Except.error _ =>
      let r := retryGo f jit base maxd (attempt + 1) rem
      (r.1, min (base * 2 ^ attempt + jit attempt) maxd :: r.2.1, r.2.2 + 1)

/-- `retry_with_backoff` (utils.py 55–92) after parameter defaulting: run
the loop from attempt 0 with `maxRetries` retries permitted. -/
def retryWithBackoff {ε α : Type} (f : Nat → Except ε α) (jit : Nat → Nat)
    (base maxd maxRetries : Nat) : Except ε α × List Nat × Nat :=
  retryGo f jit base maxd 0 maxRetries

/-! ### Parameter defaulting via `or` (`utils.retry_with_backoff`, lines 63–66;
`constants.get_config`, line 65) -/

/-- Python's `arg or default` for an optional integer parameter: both
`None` and `0` are falsy, so both select the default. -/
def pyOrNat (arg : Option Nat) (cfg : Nat) : Nat :=
  match arg with
  | none => cfg
  | some n => if n = 0 then cfg else n

/-- The process-wide default of `max_retries`
(`int(os.getenv("MAX_RETRIES", "3"))` with the variable unset). -/
def defaultMaxRetries : Nat := 3

/-! ### Record assembly and coercion (`models.ToplineData.from_topline_and_detail`,
`convert_to_string`, `HorseRecord`; models.py 39–128) -/

/-- A Python value as it can appear in a topline/detail field map.
`pfloat m e` stands for the float whose exact decimal value is
`m / 10 ^ e`. -/
inductive PyVal : Type
  | pnone : PyVal
  | pstr : String → PyVal
  | pint : Int → PyVal
  | pbool : Bool → PyVal
  | pfloat : Int → Nat → PyVal
  | plist : List PyVal → PyVal

/-- Decimal digit string of a natural number, as `str` prints it. -/
def natDigits (n : Nat) : String := String.mk (Nat.toDigits 10 n)

/-- Python `str()` of an int. -/
def intStr (n : Int) : String := (if n < 0 then "-" else "") ++ natDigits n.natAbs

/-- Python `str()` of a float whose exact value is the decimal
`m / 10 ^ e`: the digit string with a decimal point before the last `e`
digits (Python prints the shortest round-tripping decimal, which for the
exactly-representable decimals modelled here is this string). -/
def floatRepr (m : Int) (e : Nat) : String :=
  let s := natDigits m.natAbs
  let s2 := String.mk (List.replicate (e + 1 - s.length) '0') ++ s
  (if m < 0 then "-" else "") ++ String.mk (s2.data.take (s2.length - e)) ++ "." ++
    String.mk (s2.data.drop (s2.length - e))

/-- The `convert_to_string` field validator (models.py 68–76 and
114–122): `None` becomes `""`, lists (and dicts) pass through unchanged,
every other scalar becomes its string representation. -/
def convertToString : PyVal → PyVal
  | PyVal.pnone => PyVal.pstr ""
  | PyVal.plist l => PyVal.plist l
  | PyVal.pstr s => PyVal.pstr s
  | PyVal.pint n => PyVal.pstr (intStr n)
  | PyVal.pbool b => PyVal.pstr (if b then "True" else "False")
  | PyVal.pfloat m e => PyVal.pstr (floatRepr m e)

/-- The `HorseRecord` schema field names in declaration order
(models.py 93–112). -/
def schemaFields : List String :=
  ["馬號", "馬匹ID", "馬名", "馬匹編號", "最近6輪", "排位", "負磅", "騎師", "練馬師",
   "獨贏", "位置", "當前評分", "國際評分", "配備", "讓磅", "練馬師喜好", "馬齡",
   "傷病記錄", "往績紀錄", "馬匹基本資料"]

/-- Declared default of each schema field: `"1"` for 練馬師喜好
(models.py 108), the empty list for the two list fields, `""` otherwise. -/
def fieldDefault (f : String) : PyVal :=
  if f = "練馬師喜好" then PyVal.pstr "1"
  else if f = "傷病記錄" ∨ f = "往績紀錄" then PyVal.plist []
  else PyVal.pstr ""

/-- `from_topline_and_detail` followed by record construction
(models.py 78–87, then the validator at 114–122): overlay detail over the
topline copy (`merged.update(detail)`, detail wins), apply
`convert_to_string` to every provided field, and give a field absent from
both maps its declared default. -/
def assembleField (topline detail : List (String × PyVal)) (f : String) : PyVal :=
  match alistFind detail f with
  | some v => convertToString v
  | none =>
    match alistFind topline f with
    | some v => convertToString v
    | none => fieldDefault f

/-! ### Past-run extraction (`horse_detail.HorseDetailScraper._scrape_past_runs_from_main_page`,
lines 159–300; `_parse_past_runs_from_profile_text`, lines 302–349;
`_get_cell_value`, lines 524–531) -/

/-- `models.PastRunRecord` (models.py 15–36): all seventeen fields are
strings defaulting to the empty string. -/
structure PastRunRecord where
  race_date : String
  venue : String
  distance : String
  barrier : String
  weight : String
  jockey : String
  position : String
  time : String
  equipment : String
  rating : String
  odds : String
  track_condition : String
  race_class : String
  distance_to_winner : String
  running_position : String
  barrier_weight : String
  trainer : String

/-- A `PastRunRecord` with every field at its default. -/
def emptyPastRun : PastRunRecord :=
  ⟨"", "", "", "", "", "", "", "", "", "", "", "", "", "", "", "", ""⟩

/-- The comprehensive indicator vocabulary (horse_detail.py 184–186). -/
def comprehensiveIndicators : List String :=
  ["場次", "名次", "日期", "馬場", "跑道", "賽道", "途程", "場地狀況",
   "賽事班次", "檔位", "評分", "練馬師", "騎師", "頭馬距離", "獨贏賠率",
   "實際負磅", "沿途走位", "完成時間", "排位體重", "配備"]

/-- The basic indicator vocabulary (horse_detail.py 191). -/
def basicIndicators : List String :=
  ["日期", "場地", "途程", "檔位", "負磅", "騎師", "名次", "時間", "配備", "評分", "獨贏"]

/-- Number of indicators appearing as a substring of some header text
(`sum(1 for indicator in ... if any(indicator in header for header in headers))`). -/
def foundCount (inds headers : List String) : Nat :=
  (inds.filter (fun ind => headers.any (fun h => strSub ind h))).length

/-- The `{header: i}` dict built over `enumerate(headers)`
(horse_detail.py 199–201, 248–250); a duplicated header text keeps the
later index, as Python dict assignment does. -/
def headerMappingGo : Nat → List String → List (String × Nat) → List (String × Nat)
  | _, [], m => m
  | i, h :: hs, m => headerMappingGo (i + 1) hs (dictInsert m h i)

/-- Header-to-index mapping for a table's header texts. -/
def headerMapping (headers : List String) : List (String × Nat) :=
  headerMappingGo 0 headers []

/-- `_get_cell_value` (horse_detail.py 524–531): try the possible header
names in order; on a mapped header whose index is in range, return the
normalized cell text; otherwise keep trying, ending with `""`. -/
def getCellValue (cells : List String) (mapping : List (String × Nat)) :
    List String → String
  | [] => ""
  | h :: hs =>
    match alistFind mapping h with
    | some idx =>
      if idx < cells.length then normalizeText (cells.getD idx "")
      else getCellValue cells mapping hs
    | none => getCellValue cells mapping hs

/-- A `PastRunRecord` built from a comprehensive-table row
(horse_detail.py 213–234), the extended fields included. -/
def mkComprehensiveRec (cells : List String) (mapping : List (String × Nat)) : PastRunRecord :=
  { race_date := getCellValue cells mapping ["日期", "Date"]
    venue := getCellValue cells mapping ["馬場", "跑道", "賽道", "場地", "Venue"]
    distance := getCellValue cells mapping ["途程", "Distance"]
    barrier := getCellValue cells mapping ["檔位", "Barrier"]
    weight := getCellValue cells mapping ["實際負磅", "負磅", "Weight"]
    jockey := getCellValue cells mapping ["騎師", "Jockey"]
    position := getCellValue cells mapping ["名次", "Position"]
    time := getCellValue cells mapping ["完成時間", "時間", "Time"]
    equipment := getCellValue cells mapping ["配備", "Equipment"]
    rating := getCellValue cells mapping ["評分", "Rating"]
    odds := getCellValue cells mapping ["獨贏賠率", "獨贏", "Odds"]
    track_condition := getCellValue cells mapping ["場地狀況", "Track Condition"]
    race_class := getCellValue cells mapping ["賽事班次", "Class"]
    distance_to_winner := getCellValue cells mapping ["頭馬距離", "Distance to Winner"]
    running_position := getCellValue cells mapping ["沿途走位", "Running Position"]
    barrier_weight := getCellValue cells mapping ["排位體重", "Barrier Weight"]
    trainer := getCellValue cells mapping ["練馬師", "Trainer"] }

/-- A `PastRunRecord` built from a basic-table row
(horse_detail.py 262–274): the extended fields stay at their defaults. -/
def mkBasicRec (cells : List String) (mapping : List (String × Nat)) : PastRunRecord :=
  { emptyPastRun with
    race_date := getCellValue cells mapping ["日期", "Date"]
    venue := getCellValue cells mapping ["場地", "Venue"]
    distance := getCellValue cells mapping ["途程", "Distance"]
    barrier := getCellValue cells mapping ["檔位", "Barrier"]
    weight := getCellValue cells mapping ["負磅", "Weight"]
    jockey := getCellValue cells mapping ["騎師", "Jockey"]
    position := getCellValue cells mapping ["名次", "Position"]
    time := getCellValue cells mapping ["時間", "Time"]
    equipment := getCellValue cells mapping ["配備", "Equipment"]
    rating := getCellValue cells mapping ["評分", "Rating"]
    odds := getCellValue cells mapping ["獨贏", "Odds"] }

/-- Rows kept from a comprehensive table: skip the header row, take up to
6 data rows, require at least 10 cells, keep a row only if one of
race_date/position/jockey is non-empty (horse_detail.py 203–238). -/
def compRows (rows : List (List String)) (headers : List String) : List PastRunRecord :=
  ((rows.drop 1).take 6).filterMap (fun cells =>
    if cells.length < 10 then none
    else
      let r := mkComprehensiveRec cells (headerMapping headers)
      if r.race_date != "" || r.position != "" || r.jockey != "" then some r else none)

/-- Rows kept from a basic table: skip the header row, take up to 6 data
rows, require at least as many cells as headers, keep a row only if one
of race_date/venue/position is non-empty (horse_detail.py 252–278). -/
def basicRows (rows : List (List String)) (headers : List String) : List PastRunRecord :=
  ((rows.drop 1).take 6).filterMap (fun cells =>
    if cells.length < headers.length then none
    else
      let r := mkBasicRec cells (headerMapping headers)
      if r.race_date != "" || r.venue != "" || r.position != "" then some r else none)

/-- The `for table in tables` loop of `_scrape_past_runs_from_main_page`
(horse_detail.py 167–289) accumulating into `past_runs`: tables with
fewer than 2 rows are skipped; a comprehensive table (count ≥ 8) appends
its rows and the scan continues; a basic table (count ≥ 3) appends its
rows and, if the accumulated list is non-empty, the scan stops
(`if past_runs: break`). -/
def processTables : List (List (List String)) → List PastRunRecord → List PastRunRecord
  | [], acc => acc
  | rows :: rest, acc =>
    if rows.length < 2 then processTables rest acc
    else
      if 8 ≤ foundCount comprehensiveIndicators ((rows.headD []).map normalizeText) then
        processTables rest (acc ++ compRows rows ((rows.headD []).map normalizeText))
      else if 3 ≤ foundCount basicIndicators ((rows.headD []).map normalizeText) then
        if (acc ++ basicRows rows ((rows.headD []).map normalizeText)).isEmpty then
          processTables rest (acc ++ basicRows rows ((rows.headD []).map normalizeText))
        else acc ++ basicRows rows ((rows.headD []).map normalizeText)
      else processTables rest acc

/-- Maximal leading digit run of a character list, with the remainder. -/
def takeDigits : List Char → List Char × List Char
  | [] => ([], [])
  | c :: cs =>
    if c.isDigit then
      ((takeDigits cs).1.cons c, (takeDigits cs).2)
    else ([], c :: cs)

/-- Drop leading whitespace (`\s*`). -/
def skipWs : List Char → List Char
  | [] => []
  | c :: cs => if isSpaceCh c then skipWs cs else c :: cs

/-- `re.findall(r"(\d+):\s*(\d+)", page_text)` (horse_detail.py 313–315):
scan left to right; at each position try a maximal digit run, a colon,
optional whitespace and a second digit run, emit the two groups and
continue after the match; otherwise advance one character.  The fuel
starts at the text length, which bounds the number of scan steps, so it
is never exhausted before the text is. -/
def findPairsGo : Nat → List Char → List (String × String)
  | 0, _ => []
  | _, [] => []
  | fuel + 1, c :: cs =>
    if c.isDigit then
      match (takeDigits (c :: cs)).2 with
      | ':' :: rest2 =>
        if (takeDigits (skipWs rest2)).1.isEmpty then findPairsGo fuel cs
        else
          (String.mk (takeDigits (c :: cs)).1, String.mk (takeDigits (skipWs rest2)).1) ::
            findPairsGo fuel (takeDigits (skipWs rest2)).2
      | _ => findPairsGo fuel cs
    else findPairsGo fuel cs

/-- A fallback `PastRunRecord` carrying only the finishing position
(horse_detail.py 326–338). -/
def mkFallbackRec (pos : String) : PastRunRecord :=
  { emptyPastRun with position := pos }

/-- `_parse_past_runs_from_profile_text` (horse_detail.py 302–349): all
`number: number` pairs of the page text, last 6 (`matches[-6:]`), each
yielding a position-only record. -/
def fallbackRuns (text : String) : List PastRunRecord :=
  let ms := findPairsGo text.data.length text.data
  (ms.drop (ms.length - 6)).map (fun pr => mkFallbackRec pr.2)

/-- `_scrape_past_runs_from_main_page` (horse_detail.py 159–300): scan
the page's tables accumulating structured records; when none were found,
fall back to the text-pattern extraction. -/
def scrapePastRunsFromMainPage (tables : List (List (List String))) (pageText : String) :
    List PastRunRecord :=
  if (processTables tables []).isEmpty then fallbackRuns pageText
  else processTables tables []

/-- A table qualifies when it has at least 2 rows and clears one of the
two indicator thresholds. -/
def qualifiesB (rows : List (List String)) : Bool :=
  decide (2 ≤ rows.length) &&
    (decide (8 ≤ foundCount comprehensiveIndicators ((rows.headD []).map normalizeText)) ||
     decide (3 ≤ foundCount basicIndicators ((rows.headD []).map normalizeText)))

/-- Number of qualifying tables on a page. -/
def countQualifying (tables : List (List (List String))) : Nat :=
  (tables.filter qualifiesB).length

/-- Concrete comprehensive header row matching 10 of the 20 comprehensive
indicators. -/
def compHeaderRow : List String :=
  ["日期", "馬場", "途程", "檔位", "實際負磅", "騎師", "名次", "完成時間", "排位體重", "場地狀況"]

/-- Concrete data row with 10 cells and a non-empty date. -/
def compDataRow : List String :=
  ["2024/01/01", "田", "1200", "3", "120", "何", "1", "1.09.5", "1050", "好"]

/-- A comprehensive table with 6 data rows. -/
def compTable : List (List String) :=
  compHeaderRow :: List.replicate 6 compDataRow

/-! ### Checkpoint round trip (`utils.save_checkpoint`, lines 137–158;
`utils.load_checkpoint`, lines 161–184; `models.HorseRecord`, models.py 90–128) -/

/-- `models.InjuryRecord` (models.py 8–12): two string fields, both
defaulting to the empty string. -/
structure InjuryRecord where
  date : String
  description : String

/-- `models.HorseRecord` (models.py 90–112): the canonical output
schema. -/
structure HorseRecord where
  «馬號» : String
  «馬匹ID» : String
  «馬名» : String
  «馬匹編號» : String
  «最近6輪» : String
  «排位» : String
  «負磅» : String
  «騎師» : String
  «練馬師» : String
  «獨贏» : String
  «位置» : String
  «當前評分» : String
  «國際評分» : String
  «配備» : String
  «讓磅» : String
  «練馬師喜好» : String
  «馬齡» : String
  «傷病記錄» : List InjuryRecord
  «往績紀錄» : List PastRunRecord
  «馬匹基本資料» : String

/-- A JSON value as produced by `model_dump` and consumed by
`HorseRecord(**d)`.  `json.dump` and `json.load` (UTF-8,
`ensure_ascii=False`) are a faithful round trip between these values and
the checkpoint file's text, so the file layer itself is not modelled. -/
inductive JVal : Type
  | jnull : JVal
  | jstr : String → JVal
  | jarr : List JVal → JVal
  | jobj : List (String × JVal) → JVal

/-- `model_dump` of an `InjuryRecord`. -/
def dumpInjury (i : InjuryRecord) : JVal :=
  JVal.jobj [("date", JVal.jstr i.date), ("description", JVal.jstr i.description)]

/-- `model_dump` of a `PastRunRecord`, fields in declaration order. -/
def dumpPastRun (p : PastRunRecord) : JVal :=
  JVal.jobj
    [("race_date", JVal.jstr p.race_date), ("venue", JVal.jstr p.venue),
     ("distance", JVal.jstr p.distance), ("barrier", JVal.jstr p.barrier),
     ("weight", JVal.jstr p.weight), ("jockey", JVal.jstr p.jockey),
     ("position", JVal.jstr p.position), ("time", JVal.jstr p.time),
     ("equipment", JVal.jstr p.equipment), ("rating", JVal.jstr p.rating),
     ("odds", JVal.jstr p.odds), ("track_condition", JVal.jstr p.track_condition),
     ("race_class", JVal.jstr p.race_class),
     ("distance_to_winner", JVal.jstr p.distance_to_winner),
     ("running_position", JVal.jstr p.running_position),
     ("barrier_weight", JVal.jstr p.barrier_weight), ("trainer", JVal.jstr p.trainer)]

/-- `model_dump` of a `HorseRecord`, fields in declaration order. -/
def dumpHorse (r : HorseRecord) : JVal :=
  JVal.jobj
    [("馬號", JVal.jstr r.«馬號»), ("馬匹ID", JVal.jstr r.«馬匹ID»),
     ("馬名", JVal.jstr r.«馬名»), ("馬匹編號", JVal.jstr r.«馬匹編號»),
     ("最近6輪", JVal.jstr r.«最近6輪»), ("排位", JVal.jstr r.«排位»),
     ("負磅", JVal.jstr r.«負磅»), ("騎師", JVal.jstr r.«騎師»),
     ("練馬師", JVal.jstr r.«練馬師»), ("獨贏", JVal.jstr r.«獨贏»),
     ("位置", JVal.jstr r.«位置»), ("當前評分", JVal.jstr r.«當前評分»),
     ("國際評分", JVal.jstr r.«國際評分»), ("配備", JVal.jstr r.«配備»),
     ("讓磅", JVal.jstr r.«讓磅»), ("練馬師喜好", JVal.jstr r.«練馬師喜好»),
     ("馬齡", JVal.jstr r.«馬齡»),
     ("傷病記錄", JVal.jarr (r.«傷病記錄».map dumpInjury)),
     ("往績紀錄", JVal.jarr (r.«往績紀錄».map dumpPastRun)),
     ("馬匹基本資料", JVal.jstr r.«馬匹基本資料»)]

/-- Whether the value stored under a string-typed field key passes
pydantic validation with the `convert_to_string` hook: a missing key, a
string or `null` are acceptable; an array or object in a string field
raises. -/
def jStrFieldOk (o : List (String × JVal)) (k : String) : Bool :=
  match alistFind o k with
  | some (JVal.jarr _) => false
  | some (JVal.jobj _) => false
  | _ => true

/-- Reconstructed value of one string field in `Model(**d)`: a missing
key takes the declared default, a string passes through, `null` is
coerced to `""` by `convert_to_string` (only meaningful when
`jStrFieldOk` holds). -/
def jStrFieldVal (o : List (String × JVal)) (k dflt : String) : String :=
  match alistFind o k with
  | none => dflt
  | some (JVal.jstr s) => s
  | some _ => ""

/-- Reconstructing one list field: a missing key defaults to the empty
list, an array passes through for element-wise validation, anything else
fails validation. -/
def jListField (o : List (String × JVal)) (k : String) : Option (List JVal) :=
  match alistFind o k with
  | none => some []
  | some (JVal.jarr l) => some l
  | some _ => none

/-- The string-typed field keys of `InjuryRecord`. -/
def injuryStrKeys : List String := ["date", "description"]

/-- `InjuryRecord(**d)`. -/
def parseInjury : JVal → Option InjuryRecord
  | JVal.jobj o =>
    if injuryStrKeys.all (fun k => jStrFieldOk o k) then
      some ⟨jStrFieldVal o "date" "", jStrFieldVal o "description" ""⟩
    else none
  | _ => none

/-- The string-typed field keys of `PastRunRecord`, in declaration
order. -/
def pastRunStrKeys : List String :=
  ["race_date", "venue", "distance", "barrier", "weight", "jockey", "position",
   "time", "equipment", "rating", "odds", "track_condition", "race_class",
   "distance_to_winner", "running_position", "barrier_weight", "trainer"]

/-- `PastRunRecord(**d)`. -/
def parsePastRun : JVal → Option PastRunRecord
  | JVal.jobj o =>
    if pastRunStrKeys.all (fun k => jStrFieldOk o k) then
      some
        ⟨jStrFieldVal o "race_date" "", jStrFieldVal o "venue" "",
         jStrFieldVal o "distance" "", jStrFieldVal o "barrier" "",
         jStrFieldVal o "weight" "", jStrFieldVal o "jockey" "",
         jStrFieldVal o "position" "", jStrFieldVal o "time" "",
         jStrFieldVal o "equipment" "", jStrFieldVal o "rating" "",
         jStrFieldVal o "odds" "", jStrFieldVal o "track_condition" "",
         jStrFieldVal o "race_class" "", jStrFieldVal o "distance_to_winner" "",
         jStrFieldVal o "running_position" "", jStrFieldVal o "barrier_weight" "",
         jStrFieldVal o "trainer" ""⟩
    else none
  | _ => none

/-- The string-typed field keys of `HorseRecord`, in declaration order. -/
def horseStrKeys : List String :=
  ["馬號", "馬匹ID", "馬名", "馬匹編號", "最近6輪", "排位", "負磅", "騎師", "練馬師",
   "獨贏", "位置", "當前評分", "國際評分", "配備", "讓磅", "練馬師喜好", "馬齡",
   "馬匹基本資料"]

/-- `HorseRecord(**d)` (the `[HorseRecord(**record_data) for ...]` of
`load_checkpoint`): the 18 string fields (練馬師喜好 defaulting to
`"1"`), and the two list fields validated element-wise. -/
def parseHorse : JVal → Option HorseRecord
  | JVal.jobj o =>
    if horseStrKeys.all (fun k => jStrFieldOk o k) then
      match jListField o "傷病記錄", jListField o "往績紀錄" with
      | some li, some lp =>
        match li.mapM parseInjury, lp.mapM parsePastRun with
        | some inj, some runs =>
          some
            ⟨jStrFieldVal o "馬號" "", jStrFieldVal o "馬匹ID" "",
             jStrFieldVal o "馬名" "", jStrFieldVal o "馬匹編號" "",
             jStrFieldVal o "最近6輪" "", jStrFieldVal o "排位" "",
             jStrFieldVal o "負磅" "", jStrFieldVal o "騎師" "",
             jStrFieldVal o "練馬師" "", jStrFieldVal o "獨贏" "",
             jStrFieldVal o "位置" "", jStrFieldVal o "當前評分" "",
             jStrFieldVal o "國際評分" "", jStrFieldVal o "配備" "",
             jStrFieldVal o "讓磅" "", jStrFieldVal o "練馬師喜好" "1",
             jStrFieldVal o "馬齡" "", inj, runs, jStrFieldVal o "馬匹基本資料" ""⟩
        | _, _ => none
      | _, _ => none
    else none
  | _ => none

/-- `save_checkpoint` (utils.py 137–158) at the JSON-value level:
`[record.model_dump() for record in data]` written as a JSON array. -/
def saveCheckpointJson (l : List HorseRecord) : JVal :=
  JVal.jarr (l.map dumpHorse)

/-- `load_checkpoint` (utils.py 161–184) at the JSON-value level: parse
every element back into a `HorseRecord`; any validation failure raises,
which the function's `except` turns into an overall failure. -/
def loadCheckpointJson : JVal → Option (List HorseRecord)
  | JVal.jarr l => l.mapM parseHorse
  | _ => none

/-! ### Injury extraction (`horse_detail.HorseDetailScraper._scrape_injuries_from_separate_page`,
lines 421–522) -/

/-- Python `str.isdigit` on the repertoire in scope: non-empty and all
ASCII digits. -/
def pyIsDigit (s : String) : Bool :=
  s != "" && s.data.all Char.isDigit

/-- Constructing `InjuryRecord(date=..., description=..., pass_date=...)`
(horse_detail.py 470–474 and 497–501): the model (models.py 8–12)
declares only `date` and `description`, and pydantic's default
`extra="ignore"` config silently drops the unknown `pass_date` keyword,
so the third argument does not reach the record. -/
def injuryRecordOfKw (date description _passDate : String) : InjuryRecord :=
  ⟨date, description⟩

/-- Modelled from the spec: the record `(date, description, pass-date)`
that §4.5 of the spec says is recorded from fixed column positions; the
code computes all three but the model type cannot store the third. -/
structure FullInjury where
  date : String
  description : String
  pass_date : String

/-- Forget the pass date. -/
def dropPassDate (f : FullInjury) : InjuryRecord :=
  ⟨f.date, f.description⟩

/-- Continuation-row scan (horse_detail.py 479–509): keep consuming rows
with at least 5 cells, an empty second cell, and a date-like first cell
(contains `/` or all digits); record `(first, third, fourth)` cells as
(date, description, pass-date) when date and description are non-empty,
normalizing a pass date of `"-"` to `""`; stop at the first row breaking
the pattern. -/
def contScan : List (List String) → List InjuryRecord
  | [] => []
  | cells :: rest =>
    if 5 ≤ cells.length then
      if normalizeText (cells.getD 1 "") == "" &&
          normalizeText (cells.getD 0 "") != "" &&
          (strSub "/" (normalizeText (cells.getD 0 "")) ||
            pyIsDigit (normalizeText (cells.getD 0 ""))) then
        if normalizeText (cells.getD 0 "") != "" &&
            normalizeText (cells.getD 2 "") != "" then
          injuryRecordOfKw (normalizeText (cells.getD 0 ""))
              (normalizeText (cells.getD 2 ""))
              (if normalizeText (cells.getD 3 "") == "-" then ""
               else normalizeText (cells.getD 3 "")) ::
            contScan rest
        else contScan rest
      else []
    else []

/-- `_scrape_injuries_from_separate_page` (horse_detail.py 421–522) over
the veterinary table's rows (as raw cell texts): find the first row of at
least 5 cells whose joined text contains the horse name and whose second
cell equals the name with non-empty date and description cells; record
`(cells[2], cells[3], cells[4])` as (date, description, pass-date) with
`"-"` normalized to `""`, scan continuation rows, and stop. -/
def scrapeInjuries (name : String) : List (List String) → List InjuryRecord
  | [] => []
  | cells :: rest =>
    if 5 ≤ cells.length then
      if strSub name (String.intercalate " " (cells.map normalizeText)) then
        if normalizeText (cells.getD 1 "") == name &&
            normalizeText (cells.getD 2 "") != "" &&
            normalizeText (cells.getD 3 "") != "" then
          injuryRecordOfKw (normalizeText (cells.getD 2 ""))
              (normalizeText (cells.getD 3 ""))
              (if normalizeText (cells.getD 4 "") == "-" then ""
               else normalizeText (cells.getD 4 "")) ::
            contScan rest
        else scrapeInjuries name rest
      else scrapeInjuries name rest
    else scrapeInjuries name rest

/-- The continuation-row scan as the spec describes it, with the pass
date stored. -/
def contScanFull : List (List String) → List FullInjury
  | [] => []
  | cells :: rest =>
    if 5 ≤ cells.length then
      if normalizeText (cells.getD 1 "") == "" &&
          normalizeText (cells.getD 0 "") != "" &&
          (strSub "/" (normalizeText (cells.getD 0 "")) ||
            pyIsDigit (normalizeText (cells.getD 0 ""))) then
        if normalizeText (cells.getD 0 "") != "" &&
            normalizeText (cells.getD 2 "") != "" then
          FullInjury.mk (normalizeText (cells.getD 0 ""))
              (normalizeText (cells.getD 2 ""))
              (if normalizeText (cells.getD 3 "") == "-" then ""
               else normalizeText (cells.getD 3 "")) ::
            contScanFull rest
        else contScanFull rest
      else []
    else []

/-- The injury extraction as the spec describes it, with the pass date
stored in the record. -/
def scrapeInjuriesFull (name : String) : List (List String) → List FullInjury
  | [] => []
  | cells :: rest =>
    if 5 ≤ cells.length then
      if strSub name (String.intercalate " " (cells.map normalizeText)) then
        if normalizeText (cells.getD 1 "") == name &&
            normalizeText (cells.getD 2 "") != "" &&
            normalizeText (cells.getD 3 "") != "" then
          FullInjury.mk (normalizeText (cells.getD 2 ""))
              (normalizeText (cells.getD 3 ""))
              (if normalizeText (cells.getD 4 "") == "-" then ""
               else normalizeText (cells.getD 4 "")) ::
            contScanFull rest
        else scrapeInjuriesFull name rest
      else scrapeInjuriesFull name rest
    else scrapeInjuriesFull name rest

/-! ### Fatality of output-write failures (`utils.save_final_output`, lines 187–208;
`utils.save_checkpoint`, lines 137–158; `main.main`, lines 204–227) -/

/-- `save_final_output` (utils.py 187–208), abstracted over the outcome of
its file write: the entire body is wrapped in `try/except Exception`,
which logs the error and returns normally, so no exception escapes. -/
def saveFinalOutputResult (write : Except String Unit) : Except String Unit :=
  match write with
  | Except.ok _ => Except.ok ()
  | Except.error _ => Except.ok ()

/-- `save_checkpoint` (utils.py 137–158): identical try/except structure,
a failed write is logged and swallowed. -/
def saveCheckpointResult (write : Except String Unit) : Except String Unit :=
  match write with
  | Except.ok _ => Except.ok ()
  | Except.error _ => Except.ok ()

/-- The tail of `main` (main.py 204–227): after the scraping loop,
`save_final_output` is called and the success messages are printed; the
process exit status is non-zero only if an exception propagates out of
the `try` block into the `except Exception` handler (`sys.exit(1)`). -/
def mainFinalizeExitCode (write : Except String Unit) : Nat :=
  match saveFinalOutputResult write with
  | Except.ok _ => 0
  | Except.error _ => 1

end HKJC

namespace HKJC

theorem alistFind_dictInsert_self (m : List (String × Nat)) (k : String) (v : Nat) :
    alistFind (dictInsert m k v) k = some v := by
  induction m with
  | nil => simp [dictInsert, alistFind]
  | cons p rest ih =>
    obtain ⟨k0, v0⟩ := p
    by_cases h : k0 = k
    · simp [dictInsert, alistFind, h]
    · simp [dictInsert, alistFind, h, ih]

theorem alistFind_dictInsert_ne (m : List (String × Nat)) {k e : String} (v : Nat)
    (h : e ≠ k) : alistFind (dictInsert m k v) e = alistFind m e := by
  induction m with
  | nil => simp [dictInsert, alistFind, Ne.symm h]
  | cons p rest ih =>
    obtain ⟨k0, v0⟩ := p
    by_cases hk : k0 = k
    · subst hk
      simp [dictInsert, alistFind, Ne.symm h]
    · simp [dictInsert, alistFind, hk, ih]

theorem alistKeys_dictInsert_mem (m : List (String × Nat)) (k : String) (v : Nat)
    (x : String) : x ∈ alistKeys (dictInsert m k v) ↔ x ∈ alistKeys m ∨ x = k := by
  induction m with
  | nil => simp [dictInsert, alistKeys]
  | cons p rest ih =>
    obtain ⟨k0, v0⟩ := p
    by_cases hk : k0 = k
    · subst hk
      simp only [dictInsert, if_pos rfl]
      simp [alistKeys]
      tauto
    · simp only [dictInsert, if_neg hk]
      simp [alistKeys] at ih ⊢
      tauto

theorem alistKeys_dictInsert_nodup (m : List (String × Nat)) (k : String) (v : Nat)
    (h : (alistKeys m).Nodup) : (alistKeys (dictInsert m k v)).Nodup := by
  induction m with
  | nil => simp [dictInsert, alistKeys]
  | cons p rest ih =>
    obtain ⟨k0, v0⟩ := p
    simp only [alistKeys, List.map_cons, List.nodup_cons] at h
    by_cases hk : k0 = k
    · subst hk
      have hins : dictInsert ((k0, v0) :: rest) k0 v = (k0, v) :: rest := by
        simp [dictInsert]
      rw [hins]
      simp only [alistKeys, List.map_cons, List.nodup_cons]
      exact h
    · have h2 := ih h.2
      simp only [dictInsert, if_neg hk, alistKeys, List.map_cons, List.nodup_cons]
      refine ⟨?_, h2⟩
      intro hmem
      rcases (alistKeys_dictInsert_mem rest k v k0).mp hmem with hmem2 | hmem2
      · exact h.1 hmem2
      · exact hk hmem2

theorem buildColumnMapGo_find (expected : List String) (e : String) :
    ∀ (cs : List String) (i : Nat) (m : List (String × Nat)),
      alistFind (buildColumnMapGo expected i cs m) e =
        match lastAssignedIdx expected e i cs with
        | some j => some j
        | none => alistFind m e := by
  intro cs
  induction cs with
  | nil => intro i m; rfl
  | cons c cs ih =>
    intro i m
    simp only [buildColumnMapGo, lastAssignedIdx]
    by_cases hc : normalizeText c = ""
    · rw [if_pos hc, if_pos hc, ih]
      cases lastAssignedIdx expected e (i + 1) cs <;> rfl
    · rw [if_neg hc, if_neg hc]
      cases hf : firstMatchingLabel expected (normalizeText c) with
      | none =>
        rw [ih]
        cases lastAssignedIdx expected e (i + 1) cs with
        | some j => rfl
        | none => simp [hf]
      | some e2 =>
        rw [ih]
        cases lastAssignedIdx expected e (i + 1) cs with
        | some j => rfl
        | none =>
          by_cases he : e2 = e
          · subst he
            simp [hf, alistFind_dictInsert_self]
          · have : ¬ (some e2 = some e) := by
              intro hcontra; exact he (Option.some.inj hcontra)
            simp only [hf, if_neg this]
            exact alistFind_dictInsert_ne m i (fun hcontra => he hcontra.symm)

theorem buildColumnMapGo_nodup (expected : List String) :
    ∀ (cs : List String) (i : Nat) (m : List (String × Nat)),
      (alistKeys m).Nodup → (alistKeys (buildColumnMapGo expected i cs m)).Nodup := by
  intro cs
  induction cs with
  | nil => intro i m h; exact h
  | cons c cs ih =>
    intro i m h
    simp only [buildColumnMapGo]
    by_cases hc : normalizeText c = ""
    · rw [if_pos hc]; exact ih _ _ h
    · rw [if_neg hc]
      cases hf : firstMatchingLabel expected (normalizeText c) with
      | none => exact ih _ _ h
      | some e2 => exact ih _ _ (alistKeys_dictInsert_nodup m e2 i h)

/-- C1, counterexample.  With header cells `["編號", "編號"]` and the
single expected label `"編號"`, both columns match the label; the claim
says the label keeps the FIRST matching column (index 0, as the map built
from the first cell alone shows), but `get_header_column_map` stores the
later column's index 1: the later matching column overwrites the entry
instead of leaving the map unchanged. -/
theorem C1_counterexample :
    getHeaderColumnMap ["編號", "編號"] ["編號"] = [("編號", 1)] ∧
      getHeaderColumnMap ["編號"] ["編號"] = [("編號", 0)] := by
  exact ⟨by decide, by decide⟩

/-- C1 (amended): `get_header_column_map` assigns each expected label at
most once (the resulting map's keys are nodup), and the index stored for a
label `e` is the index of the LAST header column whose first matching
expected label is `e` — a later matching column overwrites the earlier
assignment rather than leaving the map unchanged. -/
theorem C1_column_map_last_match_wins :
    (∀ cells expected e,
        alistFind (getHeaderColumnMap cells expected) e = lastAssignedIdx expected e 0 cells) ∧
      (∀ cells expected, (alistKeys (getHeaderColumnMap cells expected)).Nodup) := by
  constructor
  · intro cells expected e
    rw [getHeaderColumnMap, buildColumnMapGo_find]
    cases lastAssignedIdx expected e 0 cells <;> rfl
  · intro cells expected
    exact buildColumnMapGo_nodup expected cells 0 [] (by simp [alistKeys])

theorem chHead_length {a b : List Char} (h : chHead a b = true) : a.length ≤ b.length := by
  induction a generalizing b with
  | nil => exact Nat.zero_le _
  | cons x xs ih =>
    cases b with
    | nil => simp [chHead] at h
    | cons y ys =>
      simp only [chHead, Bool.and_eq_true] at h
      simpa using ih h.2

theorem chSub_length {a b : List Char} (h : chSub a b = true) : a.length ≤ b.length := by
  induction b with
  | nil =>
    cases a with
    | nil => exact Nat.le_refl _
    | cons x xs => simp [chSub, chHead] at h
  | cons y ys ih =>
    simp only [chSub, Bool.or_eq_true] at h
    rcases h with h | h
    · exact chHead_length h
    · exact Nat.le_trans (ih h) (Nat.le_succ _)

theorem win2_mem_length {l w : List Char} (h : w ∈ win2 l) : w.length = 2 := by
  induction l with
  | nil => simp [win2] at h
  | cons a rest ih =>
    cases rest with
    | nil => simp [win2] at h
    | cons b rest2 =>
      simp only [win2, List.mem_cons] at h
      rcases h with h | h
      · simp [h]
      · exact ih h

theorem win2_short {l : List Char} (h : l.length < 2) : win2 l = [] := by
  cases l with
  | nil => rfl
  | cons a rest =>
    cases rest with
    | nil => rfl
    | cons b rest2 => simp at h; omega

theorem win2_any_false {s m : String} (h : ¬(2 ≤ s.length ∧ 2 ≤ m.length)) :
    (win2 s.data).any (fun w => chSub w m.data) = false := by
  by_cases hs : 2 ≤ s.length
  · have hm : m.length < 2 := by
      rcases Nat.lt_or_ge m.length 2 with hlt | hge
      · exact hlt
      · exact absurd ⟨hs, hge⟩ h
    simp only [List.any_eq_false]
    intro w hw hsub
    have h2 : w.length = 2 := win2_mem_length hw
    have h3 : w.length ≤ m.data.length := chSub_length hsub
    have hm2 : m.data.length < 2 := hm
    omega
  · have : s.data.length < 2 := Nat.lt_of_not_le hs
    rw [win2_short this]
    rfl

theorem normalizeText_examples :
    normalizeText "  hello  world  " = "hello world" ∧ normalizeText "" = "" ∧
      normalizeText "hello　world" = "hello world" := by
  refine ⟨?_, ?_, ?_⟩ <;> decide

theorem strSub_examples :
    strSub "馬號" "馬號 (Horse No.)" = true ∧ strSub "馬號" "騎師" = false ∧
      strSub "" "x" = true := by
  refine ⟨?_, ?_, ?_⟩ <;> decide

/-- C3, counterexample.  The claim's tier 3 says "equality after stripping
all non-alphanumeric characters from both sides", which would make
`("a_b", "a b")` a match (both strip to `"ab"`); the code strips `[^\w]`,
which keeps the underscore, and `_header_matches("a_b", "a b")` is false.
So the claimed iff fails at this input. -/
theorem C3_counterexample :
    specHeaderMatchesClaim "a_b" "a b" = true ∧ headerMatches "a_b" "a b" = false := by
  exact ⟨by decide, by decide⟩

/-- C3 (amended): `_header_matches` returns true iff one of the four tiers
succeeds, where tier 3 is equality after stripping all non-word
characters (word = alphanumeric or underscore, Python's `\w`) from both
sides; and the two cited examples hold:
`matches("馬號", "馬號 (Horse No.)")` is true and `matches("馬號", "騎師")`
is false. -/
theorem C3_header_matches_iff_tiers :
    (∀ e a, headerMatches e a = specHeaderMatchesAmended e a) ∧
      headerMatches "馬號" "馬號 (Horse No.)" = true ∧
      headerMatches "馬號" "騎師" = false := by
  refine ⟨?_, by decide, by decide⟩
  intro e a
  unfold headerMatches specHeaderMatchesAmended
  split_ifs with h1 h2 h3 h4 h5 h6
  · simp [h1]
  · simp [h1, h2]
  · simp [h1, h2, h3]
  · simp [h1, h2, h3, h4, h5]
  · simp [h1, h2, h3, h4, h5]
  · simp [h1, h2, h3, h4, h5, win2_any_false h6]
  · simp [h1, h2, h3, h4]

/-- C4: `find_table_by_headers` returns the first candidate table in page
order for which at least 3 expected labels have a matching header cell; a
table returned always has a matched count of at least 3 (so one with
fewer than 3 is never returned); and when no table qualifies the result
is the value `none`, not an exception (the embedding is a total
function). -/
theorem C4_find_table_first_qualifying :
    ∀ (tables : List TableHdr) (expected : List String),
      (findTableByHeaders tables expected = none ↔
        ∀ t ∈ tables, tableHasHeadersB t expected = false) ∧
      (∀ t, findTableByHeaders tables expected = some t →
        3 ≤ matchedCount t expected ∧
        ∃ pre suf, tables = pre ++ t :: suf ∧
          ∀ u ∈ pre, tableHasHeadersB u expected = false) := by
  intro tables expected
  induction tables with
  | nil =>
    constructor
    · simp [findTableByHeaders]
    · intro t h
      simp [findTableByHeaders] at h
  | cons t0 ts ih =>
    by_cases hp : tableHasHeadersB t0 expected = true
    · constructor
      · constructor
        · intro h
          simp [findTableByHeaders, List.find?_cons, hp] at h
        · intro h
          exact absurd (h t0 (List.mem_cons_self t0 ts)) (by simp [hp])
      · intro t h
        simp only [findTableByHeaders, List.find?_cons, hp, cond_true] at h
        obtain rfl : t0 = t := Option.some.inj h
        refine ⟨?_, [], ts, rfl, by simp⟩
        have := of_decide_eq_true hp
        exact this
    · have hp2 : tableHasHeadersB t0 expected = false := by
        cases h2 : tableHasHeadersB t0 expected
        · rfl
        · exact absurd h2 hp
      have hrec : findTableByHeaders (t0 :: ts) expected = findTableByHeaders ts expected := by
        simp [findTableByHeaders, List.find?_cons, hp2]
      constructor
      · rw [hrec, ih.1]
        constructor
        · intro h u hu
          rcases List.mem_cons.mp hu with rfl | hu2
          · exact hp2
          · exact h u hu2
        · intro h u hu
          exact h u (List.mem_cons_of_mem t0 hu)
      · intro t h
        rw [hrec] at h
        obtain ⟨hcount, pre, suf, heq, hpre⟩ := ih.2 t h
        refine ⟨hcount, t0 :: pre, suf, by rw [heq, List.cons_append], ?_⟩
        intro u hu
        rcases List.mem_cons.mp hu with rfl | hu2
        · exact hp2
        · exact hpre u hu2

/-- Witness for C4 at a concrete page: a non-qualifying table followed by
a qualifying one (3 of the 4 expected labels match) is passed over and
the qualifying table's matched count is at least 3. -/
theorem C4_find_table_witness :
    3 ≤ matchedCount (TableHdr.mk ["日期", "場地", "途程"] []) ["日期", "場地", "途程", "檔位"] := by
  have h := (C4_find_table_first_qualifying
      [TableHdr.mk ["名次", "完成"] [], TableHdr.mk ["日期", "場地", "途程"] []]
      ["日期", "場地", "途程", "檔位"]).2
      (TableHdr.mk ["日期", "場地", "途程"] []) (by decide)
  exact h.1

theorem retryGo_calls_le {ε α : Type} (f : Nat → Except ε α) (jit : Nat → Nat)
    (base maxd : Nat) :
    ∀ (rem attempt : Nat), (retryGo f jit base maxd attempt rem).2.2 ≤ rem + 1 := by
  intro rem
  induction rem with
  | zero =>
    intro attempt
    simp only [retryGo]
    cases f attempt <;> simp
  | succ n ih =>
    intro attempt
    simp only [retryGo]
    cases f attempt with
    | ok v => simp
    | error e =>
      simp only []
      have := ih (attempt + 1)
      omega

theorem retryGo_sleeps_le {ε α : Type} (f : Nat → Except ε α) (jit : Nat → Nat)
    (base maxd : Nat) :
    ∀ (rem attempt : Nat), (retryGo f jit base maxd attempt rem).2.1.length ≤ rem := by
  intro rem
  induction rem with
  | zero =>
    intro attempt
    simp only [retryGo]
    cases f attempt <;> simp
  | succ n ih =>
    intro attempt
    simp only [retryGo]
    cases f attempt with
    | ok v => simp
    | error e =>
      simp only [List.length_cons]
      have := ih (attempt + 1)
      omega

theorem retryGo_sleep_formula {ε α : Type} (f : Nat → Except ε α) (jit : Nat → Nat)
    (base maxd : Nat) :
    ∀ (rem attempt : Nat) (i : Nat)
      (h : i < (retryGo f jit base maxd attempt rem).2.1.length),
      (retryGo f jit base maxd attempt rem).2.1.get ⟨i, h⟩ =
        min (base * 2 ^ (attempt + i) + jit (attempt + i)) maxd := by
  intro rem
  induction rem with
  | zero =>
    intro attempt i h
    exfalso
    revert h
    simp only [retryGo]
    cases f attempt <;> simp
  | succ n ih =>
    intro attempt i h
    revert h
    simp only [retryGo]
    cases f attempt with
    | ok v => intro h; simp at h
    | error e =>
      intro h
      cases i with
      | zero => simp
      | succ j =>
        simp only [List.get_cons_succ]
        have hj : j < (retryGo f jit base maxd (attempt + 1) n).2.1.length := by
          simpa using h
        rw [ih (attempt + 1) j hj]
        have heq2 : attempt + 1 + j = attempt + (j + 1) := by omega
        rw [heq2]

theorem retryGo_first_success {ε α : Type} (f : Nat → Except ε α) (jit : Nat → Nat)
    (base maxd : Nat) :
    ∀ (k rem attempt : Nat) (v : α), k ≤ rem →
      (∀ j, j < k → ∃ e, f (attempt + j) = Except.error e) →
      f (attempt + k) = Except.ok v →
      (retryGo f jit base maxd attempt rem).1 = Except.ok v ∧
        (retryGo f jit base maxd attempt rem).2.2 = k + 1 := by
  intro k
  induction k with
  | zero =>
    intro rem attempt v _ _ hok
    simp only [Nat.add_zero] at hok
    cases rem with
    | zero => simp [retryGo, hok]
    | succ n => simp [retryGo, hok]
  | succ m ih =>
    intro rem attempt v hle hfail hok
    obtain ⟨e0, he0⟩ := hfail 0 (Nat.succ_pos m)
    simp only [Nat.add_zero] at he0
    cases rem with
    | zero => omega
    | succ n =>
      simp only [retryGo, he0]
      have hih := ih n (attempt + 1) v (by omega)
        (fun j hj => by
          obtain ⟨e2, he2⟩ := hfail (j + 1) (by omega)
          exact ⟨e2, by rw [show attempt + 1 + j = attempt + (j + 1) by omega]; exact he2⟩)
        (by rw [show attempt + 1 + m = attempt + (m + 1) by omega]; exact hok)
      exact ⟨hih.1, by rw [hih.2]⟩

theorem retryGo_all_fail {ε α : Type} (f : Nat → Except ε α) (jit : Nat → Nat)
    (base maxd : Nat) :
    ∀ (rem attempt : Nat) (e : ε),
      (∀ j, j ≤ rem → ∃ e2, f (attempt + j) = Except.error e2) →
      f (attempt + rem) = Except.error e →
      (retryGo f jit base maxd attempt rem).1 = Except.error e := by
  intro rem
  induction rem with
  | zero =>
    intro attempt e _ hlast
    simp only [Nat.add_zero] at hlast
    simp [retryGo, hlast]
  | succ n ih =>
    intro attempt e hfail hlast
    obtain ⟨e0, he0⟩ := hfail 0 (Nat.zero_le _)
    simp only [Nat.add_zero] at he0
    simp only [retryGo, he0]
    exact ih (attempt + 1) e
      (fun j hj => by
        obtain ⟨e2, he2⟩ := hfail (j + 1) (by omega)
        exact ⟨e2, by rw [show attempt + 1 + j = attempt + (j + 1) by omega]; exact he2⟩)
      (by rw [show attempt + 1 + n = attempt + (n + 1) by omega]; exact hlast)

/-- C5: `retry_with_backoff` invokes the operation at most
`max_retries + 1` times; when the first success is at attempt `k` (all
earlier attempts failing), the success value is returned and exactly
`k + 1` invocations were made; when every attempt fails, the last
underlying error is re-raised; and the sleep before retry number `i`
equals `min(base_delay * 2^i + jitter_i, max_delay)`, with at most
`max_retries` sleeps in total.  The jitter stream models the successive
draws of `random.randint(0, 1000)`. -/
theorem C5_retry_with_backoff_contract :
    ∀ {ε α : Type} (f : Nat → Except ε α) (jit : Nat → Nat) (base maxd maxRetries : Nat),
      (retryWithBackoff f jit base maxd maxRetries).2.2 ≤ maxRetries + 1 ∧
      (∀ k v, k ≤ maxRetries → (∀ j, j < k → ∃ e, f j = Except.error e) →
        f k = Except.ok v →
        (retryWithBackoff f jit base maxd maxRetries).1 = Except.ok v ∧
          (retryWithBackoff f jit base maxd maxRetries).2.2 = k + 1) ∧
      (∀ e, (∀ j, j ≤ maxRetries → ∃ e2, f j = Except.error e2) →
        f maxRetries = Except.error e →
        (retryWithBackoff f jit base maxd maxRetries).1 = Except.error e) ∧
      (∀ i (h : i < (retryWithBackoff f jit base maxd maxRetries).2.1.length),
        (retryWithBackoff f jit base maxd maxRetries).2.1.get ⟨i, h⟩ =
          min (base * 2 ^ i + jit i) maxd) ∧
      (retryWithBackoff f jit base maxd maxRetries).2.1.length ≤ maxRetries := by
  intro ε α f jit base maxd maxRetries
  refine ⟨retryGo_calls_le f jit base maxd maxRetries 0, ?_, ?_, ?_,
    retryGo_sleeps_le f jit base maxd maxRetries 0⟩
  · intro k v hk hfail hok
    exact retryGo_first_success f jit base maxd k maxRetries 0 v hk
      (by simpa using hfail) (by simpa using hok)
  · intro e hfail hlast
    exact retryGo_all_fail f jit base maxd maxRetries 0 e
      (by simpa using hfail) (by simpa using hlast)
  · intro i h
    have := retryGo_sleep_formula f jit base maxd maxRetries 0 i h
    simpa using this

/-- Witness for C5 at the spec's own scenario: an operation failing twice
then succeeding on the third attempt, with `max_retries = 3`, returns the
success value after exactly 3 invocations. -/
theorem C5_retry_witness :
    (retryWithBackoff (fun i => if i < 2 then Except.error 7 else Except.ok 42)
        (fun _ => 5) 100 5000 3).1 = Except.ok 42 ∧
      (retryWithBackoff (fun i => if i < 2 then Except.error 7 else Except.ok 42)
        (fun _ => 5) 100 5000 3).2.2 = 3 := by
  have h := (C5_retry_with_backoff_contract
      (fun i => if i < 2 then Except.error 7 else Except.ok 42)
      (fun _ => 5) 100 5000 3).2.1 2 42 (by decide)
      (fun j hj => ⟨7, by simp [hj]⟩) (by rfl)
  exact ⟨h.1, h.2⟩

/-- C10: passing `0` explicitly for a retry parameter is replaced by the
configured default because Python's `or` treats `0` as falsy (as is
`None`); a non-zero argument is kept; consequently with the process-wide
default `max_retries = 3`, a caller passing `0` still has the operation
attempted `3 + 1 = 4` times when every attempt fails. -/
theorem C10_zero_param_uses_default :
    (∀ c, pyOrNat (some 0) c = c) ∧
      (∀ c, pyOrNat none c = c) ∧
      (∀ n c, n ≠ 0 → pyOrNat (some n) c = n) ∧
      pyOrNat (some 0) defaultMaxRetries = 3 ∧
      (retryWithBackoff (fun _ => (Except.error 0 : Except Nat Nat)) (fun _ => 0) 1000 5000
          (pyOrNat (some 0) defaultMaxRetries)).2.2 = defaultMaxRetries + 1 := by
  refine ⟨fun c => rfl, fun c => rfl, ?_, rfl, by decide⟩
  intro n c h
  simp [pyOrNat, h]

/-- Witness for C10: a caller passing the non-zero value 5 keeps it. -/
theorem C10_zero_param_witness : pyOrNat (some 5) 3 = 5 := by
  exact C10_zero_param_uses_default.2.2.1 5 3 (by decide)

/-- C6, counterexample.  With both source maps empty, the schema field
練馬師喜好 is present in the result but holds its declared default `"1"`,
not `""` — refuting "absent source data yields \"\"" for every schema
field. -/
theorem C6_counterexample :
    assembleField [] [] "練馬師喜好" = PyVal.pstr "1" ∧
      PyVal.pstr "1" ≠ PyVal.pstr "" := by
  exact ⟨rfl, by simp⟩

/-- C6 (amended): the merge starts from topline, every key present in
detail wins, and the provided value is coerced: `None` becomes `""`,
lists pass through unchanged (never stringified), non-string scalars
become their string representation (the cited example maps `1` to `"1"`
and `85.5` to `"85.5"`); every schema field is present in the result, a
field absent from both sources taking its declared default — `""` for
every scalar field except 練馬師喜好, whose default is `"1"` (the two
list fields default to the empty list). -/
theorem C6_merge_overlay_coercion :
    (∀ tl dl f v, alistFind dl f = some v → assembleField tl dl f = convertToString v) ∧
      (∀ tl dl f v, alistFind dl f = none → alistFind tl f = some v →
        assembleField tl dl f = convertToString v) ∧
      (∀ tl dl f, alistFind dl f = none → alistFind tl f = none →
        assembleField tl dl f = fieldDefault f) ∧
      convertToString PyVal.pnone = PyVal.pstr "" ∧
      (∀ l, convertToString (PyVal.plist l) = PyVal.plist l) ∧
      (∀ n, convertToString (PyVal.pint n) = PyVal.pstr (intStr n)) ∧
      (∀ f, f ∈ schemaFields → f ≠ "練馬師喜好" → f ≠ "傷病記錄" → f ≠ "往績紀錄" →
        fieldDefault f = PyVal.pstr "") ∧
      assembleField [("馬號", PyVal.pint 1), ("當前評分", PyVal.pfloat 855 1)] [] "馬號"
        = PyVal.pstr "1" ∧
      assembleField [("馬號", PyVal.pint 1), ("當前評分", PyVal.pfloat 855 1)] [] "當前評分"
        = PyVal.pstr "85.5" := by
  refine ⟨?_, ?_, ?_, rfl, fun l => rfl, fun n => rfl, ?_, ?_, ?_⟩
  · intro tl dl f v h
    simp [assembleField, h]
  · intro tl dl f v h1 h2
    simp [assembleField, h1, h2]
  · intro tl dl f h1 h2
    simp [assembleField, h1, h2]
  · intro f _ h1 h2 h3
    simp [fieldDefault, h1, h2, h3]
  · rfl
  · rfl

/-- Witness for C6: a key present in both maps takes the detail value
(detail wins on conflict). -/
theorem C6_merge_witness :
    assembleField [("騎師", PyVal.pstr "A")] [("騎師", PyVal.pstr "B")] "騎師"
      = PyVal.pstr "B" := by
  exact C6_merge_overlay_coercion.1 [("騎師", PyVal.pstr "A")] [("騎師", PyVal.pstr "B")]
    "騎師" (PyVal.pstr "B") rfl

theorem compRows_length_le (rows : List (List String)) (headers : List String) :
    (compRows rows headers).length ≤ 6 := by
  calc (compRows rows headers).length ≤ ((rows.drop 1).take 6).length :=
        List.length_filterMap_le _ _
    _ ≤ 6 := by rw [List.length_take]; omega

theorem basicRows_length_le (rows : List (List String)) (headers : List String) :
    (basicRows rows headers).length ≤ 6 := by
  calc (basicRows rows headers).length ≤ ((rows.drop 1).take 6).length :=
        List.length_filterMap_le _ _
    _ ≤ 6 := by rw [List.length_take]; omega

theorem fallbackRuns_length_le (text : String) : (fallbackRuns text).length ≤ 6 := by
  simp only [fallbackRuns, List.length_map, List.length_drop]
  omega

theorem processTables_length_le :
    ∀ (ts : List (List (List String))) (acc : List PastRunRecord),
      (processTables ts acc).length ≤ acc.length + 6 * countQualifying ts := by
  intro ts
  induction ts with
  | nil => intro acc; simp [processTables, countQualifying]
  | cons rows rest ih =>
    intro acc
    simp only [processTables]
    by_cases h1 : rows.length < 2
    · have hq : qualifiesB rows = false := by
        simp only [qualifiesB, Bool.and_eq_false_iff]
        left
        simp only [decide_eq_false_iff_not]
        omega
      rw [if_pos h1]
      have hrec := ih acc
      have hcount : countQualifying (rows :: rest) = countQualifying rest := by
        simp [countQualifying, List.filter_cons, hq]
      omega
    · rw [if_neg h1]
      by_cases h2 : 8 ≤ foundCount comprehensiveIndicators ((rows.headD []).map normalizeText)
      · rw [if_pos h2]
        have hq : qualifiesB rows = true := by
          simp only [qualifiesB, Bool.and_eq_true, Bool.or_eq_true, decide_eq_true_eq]
          exact ⟨by omega, Or.inl h2⟩
        have hcount : countQualifying (rows :: rest) = countQualifying rest + 1 := by
          simp [countQualifying, List.filter_cons, hq]
        have hrec := ih (acc ++ compRows rows ((rows.headD []).map normalizeText))
        rw [List.length_append] at hrec
        have hc := compRows_length_le rows ((rows.headD []).map normalizeText)
        omega
      · rw [if_neg h2]
        by_cases h3 : 3 ≤ foundCount basicIndicators ((rows.headD []).map normalizeText)
        · rw [if_pos h3]
          have hq : qualifiesB rows = true := by
            simp only [qualifiesB, Bool.and_eq_true, Bool.or_eq_true, decide_eq_true_eq]
            exact ⟨by omega, Or.inr h3⟩
          have hcount : countQualifying (rows :: rest) = countQualifying rest + 1 := by
            simp [countQualifying, List.filter_cons, hq]
          have hb := basicRows_length_le rows ((rows.headD []).map normalizeText)
          by_cases he :
              (acc ++ basicRows rows ((rows.headD []).map normalizeText)).isEmpty = true
          · rw [if_pos he]
            have hrec := ih (acc ++ basicRows rows ((rows.headD []).map normalizeText))
            rw [List.length_append] at hrec
            omega
          · rw [if_neg he]
            rw [List.length_append]
            omega
        · rw [if_neg h3]
          have hq : qualifiesB rows = false := by
            simp only [qualifiesB, Bool.and_eq_false_iff, Bool.or_eq_false_iff]
            right
            simp only [decide_eq_false_iff_not]
            exact ⟨h2, h3⟩
          have hcount : countQualifying (rows :: rest) = countQualifying rest := by
            simp [countQualifying, List.filter_cons, hq]
          have hrec := ih acc
          omega

/-- C2, counterexample.  A detail page holding two copies of the same
qualifying comprehensive table (10 indicator matches in the header row, 6
data rows of 10 non-empty-date cells each) yields 12 `PastRunRecord`
entries: the 6-row cap is applied per table, and records from several
comprehensive tables accumulate without a break. -/
theorem C2_counterexample :
    (scrapePastRunsFromMainPage [compTable, compTable] "").length = 12 ∧
      ¬ (scrapePastRunsFromMainPage [compTable, compTable] "").length ≤ 6 := by
  have h12 : (scrapePastRunsFromMainPage [compTable, compTable] "").length = 12 := by rfl
  exact ⟨h12, by rw [h12]; omega⟩

/-- C2 (amended): each qualifying table contributes at most 6 records and
the text-pattern fallback at most 6, so the list returned by
`_scrape_past_runs_from_main_page` has length at most
`6 * max 1 (number of qualifying tables)`; in particular the claimed
bound of 6 holds whenever at most one table qualifies, but not in
general. -/
theorem C2_past_runs_per_table_cap :
    ∀ (tables : List (List (List String))) (pageText : String),
      (scrapePastRunsFromMainPage tables pageText).length ≤
        6 * max 1 (countQualifying tables) := by
  intro tables pageText
  simp only [scrapePastRunsFromMainPage]
  by_cases h : (processTables tables []).isEmpty = true
  · rw [if_pos h]
    have h6 := fallbackRuns_length_le pageText
    have hmax : 1 ≤ max 1 (countQualifying tables) := le_max_left _ _
    have := Nat.mul_le_mul_left 6 hmax
    omega
  · rw [if_neg h]
    have hp := processTables_length_le tables []
    simp only [List.length_nil, Nat.zero_add] at hp
    have hmax : countQualifying tables ≤ max 1 (countQualifying tables) := le_max_right _ _
    have := Nat.mul_le_mul_left 6 hmax
    omega

theorem parseInjury_dumpInjury (i : InjuryRecord) : parseInjury (dumpInjury i) = some i := rfl

theorem parsePastRun_dumpPastRun (p : PastRunRecord) :
    parsePastRun (dumpPastRun p) = some p := rfl

theorem mapM_parseInjury (l : List InjuryRecord) :
    (l.map dumpInjury).mapM parseInjury = some l := by
  induction l with
  | nil => rfl
  | cons i rest ih =>
    rw [← List.mapM'_eq_mapM] at ih ⊢
    simp [List.mapM', parseInjury_dumpInjury, ih]

theorem mapM_parsePastRun (l : List PastRunRecord) :
    (l.map dumpPastRun).mapM parsePastRun = some l := by
  induction l with
  | nil => rfl
  | cons p rest ih =>
    rw [← List.mapM'_eq_mapM] at ih ⊢
    simp [List.mapM', parsePastRun_dumpPastRun, ih]

theorem parseHorse_dumpHorse (r : HorseRecord) : parseHorse (dumpHorse r) = some r := by
  have key : parseHorse (dumpHorse r) =
      (match (r.«傷病記錄».map dumpInjury).mapM parseInjury,
             (r.«往績紀錄».map dumpPastRun).mapM parsePastRun with
       | some inj, some runs =>
         some ⟨r.«馬號», r.«馬匹ID», r.«馬名», r.«馬匹編號», r.«最近6輪», r.«排位»,
               r.«負磅», r.«騎師», r.«練馬師», r.«獨贏», r.«位置», r.«當前評分»,
               r.«國際評分», r.«配備», r.«讓磅», r.«練馬師喜好», r.«馬齡», inj, runs,
               r.«馬匹基本資料»⟩
       | _, _ => none) := rfl
  rw [key, mapM_parseInjury, mapM_parsePastRun]

/-- C7: saving a list of entrant records as a checkpoint and loading it
back yields exactly the same list — same length, same order, identical
field values.  `json.dump` and `json.load` are modelled as the identity
round trip on JSON values, which encodes the claim's assumption that the
file write and read succeed. -/
theorem C7_checkpoint_round_trip :
    ∀ l : List HorseRecord, loadCheckpointJson (saveCheckpointJson l) = some l := by
  intro l
  simp only [saveCheckpointJson, loadCheckpointJson]
  induction l with
  | nil => rfl
  | cons r rest ih =>
    rw [← List.mapM'_eq_mapM] at ih ⊢
    simp [List.mapM', parseHorse_dumpHorse, ih]

theorem contScan_full (rows : List (List String)) :
    contScan rows = (contScanFull rows).map dropPassDate := by
  induction rows with
  | nil => rfl
  | cons cells rest ih =>
    simp only [contScan, contScanFull]
    split_ifs <;> simp [ih, dropPassDate, injuryRecordOfKw]

/-- C8, counterexample.  On a one-row table owned by the matched entrant,
the resulting injury record holds only (date, description): changing the
pass-date cell from "2024/02/01" to "-" leaves the output unchanged, so
the pass-date (and its "-" normalization) is not recorded in the
resulting injury record, contrary to the claim; the spec-modelled
record with a pass-date field distinguishes the two rows and shows the
"-" normalization applying to the computed-then-discarded value. -/
theorem C8_counterexample :
    scrapeInjuries "友得盈" [["K106", "友得盈", "2024/01/01", "Lameness", "2024/02/01"]] =
        [InjuryRecord.mk "2024/01/01" "Lameness"] ∧
      scrapeInjuries "友得盈" [["K106", "友得盈", "2024/01/01", "Lameness", "2024/02/01"]] =
        scrapeInjuries "友得盈" [["K106", "友得盈", "2024/01/01", "Lameness", "-"]] ∧
      scrapeInjuriesFull "友得盈" [["K106", "友得盈", "2024/01/01", "Lameness", "-"]] =
        [FullInjury.mk "2024/01/01" "Lameness" ""] ∧
      scrapeInjuriesFull "友得盈" [["K106", "友得盈", "2024/01/01", "Lameness", "2024/02/01"]] =
        [FullInjury.mk "2024/01/01" "Lameness" "2024/02/01"] := by
  exact ⟨rfl, rfl, rfl, rfl⟩

/-- C8 (amended): the extraction reads (date, description, pass-date)
from the fixed column positions (columns 2/3/4 of the owning row, 0/2/3
of continuation rows) and normalizes a pass-date equal to "-" to the
empty string, but only (date, description) are stored: the `pass_date`
keyword passed to `InjuryRecord` is silently dropped because the model
declares no such field, so the extraction equals the spec-described
triple extraction followed by forgetting the pass date. -/
theorem C8_pass_date_read_but_dropped :
    (∀ name rows,
        scrapeInjuries name rows = (scrapeInjuriesFull name rows).map dropPassDate) ∧
      (∀ d de p, injuryRecordOfKw d de p = InjuryRecord.mk d de) := by
  refine ⟨?_, fun d de p => rfl⟩
  intro name rows
  induction rows with
  | nil => rfl
  | cons cells rest ih =>
    simp only [scrapeInjuries, scrapeInjuriesFull]
    split_ifs <;> simp [ih, contScan_full, dropPassDate, injuryRecordOfKw]

/-- C9, counterexample.  A failed final-output write (modelled as a
raised I/O error inside the write) is swallowed by `save_final_output`'s
`except Exception` handler, so `main` proceeds on its success path and
the exit status is 0 — the claim demanded a non-zero exit.  A failed
checkpoint write is likewise swallowed. -/
theorem C9_counterexample :
    mainFinalizeExitCode (Except.error "disk full") = 0 ∧
      saveCheckpointResult (Except.error "disk full") = Except.ok () := by
  exact ⟨rfl, rfl⟩

/-- C9 (amended): an I/O failure while writing the final output or a
checkpoint is caught and logged inside `save_final_output` /
`save_checkpoint` and never re-raised; the crawl completes with exit
status 0 exactly as if the write had succeeded. -/
theorem C9_write_failures_swallowed :
    (∀ w, saveFinalOutputResult w = Except.ok ()) ∧
      (∀ w, saveCheckpointResult w = Except.ok ()) ∧
      (∀ w, mainFinalizeExitCode w = 0) := by
  refine ⟨fun w => ?_, fun w => ?_, fun w => ?_⟩ <;> cases w <;> rfl

end HKJC
